import Mathlib

/-!
# Verification of the redis-stores convenience layer

A shallow embedding, in Lean 4, of the logic of the redis-stores repository:

* key prefixing and ID/key translation of `BaseStore`
  (`prefixKey`, `unPrefixKey`, `toKey`, `toId`);
* the empty-argument short circuits of the batch operations
  (`del`, `delPatterns`, `mGet`, `mGetClean`, `mGetMap`, `mGetCleanMap`);
* the scalar string parsers (`numberParser`) and the object parser
  (`objectParser` with its `recursiveReplace` / date-reviving walk);
* the search query compiler of `JsonSearchStore`
  (`buildQuery`, `addWildcard`, the empty-query short circuit of `query`);
* the index-definition differ's key-prefix comparison (`defMappings`).

JavaScript strings are modelled as lists of characters (`Str`), so that
the prefix / trim / replace operations of the source can be reasoned
about by structural induction.  Store commands (network calls) are
modelled as explicit function parameters, and the number of commands a
method issues is returned alongside its result, so that "issues no
command" is expressible.
-/

/-- JavaScript strings, modelled as lists of characters. -/
abbrev Str := List Char

/-! ## BaseStore key prefixing

Source (base-store): the constructor sets
`SEPARATOR = options.separator || ':'` and
`PREFIX = prefix + SEPARATOR`; then

* `prefixKey(key)`  : `if (key.startsWith(PREFIX)) return key; return PREFIX + key`
* `unPrefixKey(key)`: `if (key.startsWith(PREFIX)) return key.substring(PREFIX.length); return key`
* `toKey(id)` : `prefixKey(serializeKey(id))`, and `toId(key)` : `parseKey(unPrefixKey(key))`,
  where the default keygen serializes a string ID as itself and parses a
  key as itself.
-/

/-- `options.separator || ':'` — the empty string is falsy in JavaScript,
so an empty separator falls back to the literal colon. -/
def sepOrDefault (sep : Str) : Str := if sep = [] then [':'] else sep

/-- `this.PREFIX = prefix + separator` as built by the `BaseStore` constructor. -/
def storePfx (ns sep : Str) : Str := ns ++ sepOrDefault sep

/-- `BaseStore.prefixKey`. -/
def prefixKey (P k : Str) : Str := if P.isPrefixOf k then k else P ++ k

/-- `BaseStore.unPrefixKey`; `substring(PREFIX.length)` drops the prefix. -/
def unPrefixKey (P k : Str) : Str := if P.isPrefixOf k then k.drop P.length else k

/-- `BaseStore.toKey` with the default keygen (string IDs serialize to themselves). -/
def toKey (P id : Str) : Str := prefixKey P id

/-- `BaseStore.toId` with the default keygen (keys parse to themselves). -/
def toId (P k : Str) : Str := unPrefixKey P k

theorem sepOrDefault_ne_nil (sep : Str) : sepOrDefault sep ≠ [] := by
  unfold sepOrDefault
  split
  · simp
  · assumption

theorem storePfx_ne_nil (ns sep : Str) : storePfx ns sep ≠ [] := by
  unfold storePfx
  intro h
  rcases List.append_eq_nil.mp h with ⟨-, h2⟩
  exact sepOrDefault_ne_nil sep h2

theorem isPrefixOf_append (P r : Str) : P.isPrefixOf (P ++ r) = true := by
  simp [List.isPrefixOf_iff_prefix]

/-- **C9.** Key prefixing is idempotent; un-prefixing inverts prefixing on
keys that do not already carry the store prefix; with the default keygen,
`toId (toKey id) = id` exactly when `id` does not already start with the
prefix; and an unprefixed `id` and the distinct id `PREFIX + id` map to
the same store key. -/
theorem prefixKey_roundtrip (ns sep k id : Str) :
    (prefixKey (storePfx ns sep) (prefixKey (storePfx ns sep) k)
        = prefixKey (storePfx ns sep) k)
    ∧ ((storePfx ns sep).isPrefixOf k = false →
        unPrefixKey (storePfx ns sep) (prefixKey (storePfx ns sep) k) = k)
    ∧ (toId (storePfx ns sep) (toKey (storePfx ns sep) id) = id
        ↔ (storePfx ns sep).isPrefixOf id = false)
    ∧ ((storePfx ns sep).isPrefixOf id = false →
        id ≠ storePfx ns sep ++ id
        ∧ toKey (storePfx ns sep) id = toKey (storePfx ns sep) (storePfx ns sep ++ id)) := by
  set P := storePfx ns sep with hP
  have hPne : P ≠ [] := storePfx_ne_nil ns sep
  have hPlen : 0 < P.length := List.length_pos.mpr hPne
  have hidem : prefixKey P (prefixKey P k) = prefixKey P k := by
    unfold prefixKey
    by_cases h : P.isPrefixOf k = true
    · simp [h]
    · simp only [Bool.not_eq_true] at h
      simp [h, isPrefixOf_append]
  have hinv : ∀ s : Str, P.isPrefixOf s = false → unPrefixKey P (prefixKey P s) = s := by
    intro s h
    unfold prefixKey unPrefixKey
    simp [h, isPrefixOf_append, List.drop_left]
  refine ⟨hidem, hinv k, ?_, ?_⟩
  · constructor
    · intro heq
      by_contra hne
      simp only [Bool.not_eq_false] at hne
      have hkey : toKey P id = id := by simp [toKey, prefixKey, hne]
      rw [hkey] at heq
      have hdrop : toId P id = id.drop P.length := by simp [toId, unPrefixKey, hne]
      rw [hdrop] at heq
      have hle : P.length ≤ id.length :=
        (List.isPrefixOf_iff_prefix.mp hne).length_le
      have : (id.drop P.length).length = id.length - P.length := List.length_drop _ _
      rw [heq] at this
      omega
    · intro h
      exact hinv id h
  · intro h
    constructor
    · intro heq
      have hlen := congrArg List.length heq
      rw [List.length_append] at hlen
      omega
    · simp [toKey, prefixKey, h, isPrefixOf_append]

/-- Witness for C9 at concrete inputs: prefix "user" with defaulted
separator, key "abc", id "x". -/
theorem prefixKey_roundtrip_witness :
    (unPrefixKey (storePfx "user".toList []) (prefixKey (storePfx "user".toList []) "abc".toList)
        = "abc".toList)
    ∧ toId (storePfx "user".toList []) (toKey (storePfx "user".toList []) "x".toList)
        = "x".toList := by
  have h := prefixKey_roundtrip "user".toList [] "abc".toList "x".toList
  exact ⟨h.2.1 (by decide), (h.2.2.1).mpr (by decide)⟩

/-! ## Batch operations: empty-argument short circuits

Source (base-store and base-string.store): every batch operation begins
with `if (!ids.length) return <neutral>;` before any store command.  The
store client's commands are passed in as functions, and each modelled
method returns, next to its result, the number of commands it issued.
`Map` results are modelled as association lists in insertion order; the
client returns one reply per requested key, so the source's index loop is
a `zip`. -/

/-- `BaseStore.del`: `if (!ids.length) return 0; return redis.del(toKeys(...ids))`. -/
def storeDel {ID : Type} (redisDel : List String → Nat) (tK : ID → String)
    (ids : List ID) : Nat × Nat :=
  if ids.isEmpty then (0, 0) else (redisDel (ids.map tK), 1)

/-- `BaseStore.delPatterns`: returns 0 for no patterns; otherwise issues one
`keys` command per pattern (each pattern prefixed), flattens, and issues a
`del` only when matches exist. -/
def storeDelPatterns (redisKeys : String → List String) (redisDel : List String → Nat)
    (pfx : String → String) (patterns : List String) : Nat × Nat :=
  if patterns.isEmpty then (0, 0)
  else
    let keys := (patterns.map fun p => redisKeys (pfx p)).flatten
    if keys.isEmpty then (0, patterns.length)
    else (redisDel keys, patterns.length + 1)

/-- `BaseStringStore.mGet`: null replies stay null, others are deserialized. -/
def storeMGet {ID T : Type} (redisMGet : List String → List (Option String))
    (tK : ID → String) (deser : String → T) (ids : List ID) : List (Option T) × Nat :=
  if ids.isEmpty then ([], 0)
  else ((redisMGet (ids.map tK)).map fun v => v.map deser, 1)

/-- `BaseStringStore.mGetClean`: like mGet but null replies are dropped. -/
def storeMGetClean {ID T : Type} (redisMGet : List String → List (Option String))
    (tK : ID → String) (deser : String → T) (ids : List ID) : List T × Nat :=
  if ids.isEmpty then ([], 0)
  else ((redisMGet (ids.map tK)).filterMap fun v => v.map deser, 1)

/-- `BaseStringStore.mGetMap`: serialized id paired with the (possibly null)
deserialized reply. -/
def storeMGetMap {ID T : Type} (redisMGet : List String → List (Option String))
    (tK : ID → String) (ser : ID → String) (deser : String → T)
    (ids : List ID) : List (String × Option T) × Nat :=
  if ids.isEmpty then ([], 0)
  else ((ids.map ser).zip ((redisMGet (ids.map tK)).map fun v => v.map deser), 1)

/-- `BaseStringStore.mGetCleanMap`: like mGetMap but null replies are skipped. -/
def storeMGetCleanMap {ID T : Type} (redisMGet : List String → List (Option String))
    (tK : ID → String) (ser : ID → String) (deser : String → T)
    (ids : List ID) : List (String × T) × Nat :=
  if ids.isEmpty then ([], 0)
  else
    (((ids.map ser).zip (redisMGet (ids.map tK))).filterMap
        fun kv => (kv.2.map deser).map fun t => (kv.1, t), 1)

/-- **C10.** Every batch operation invoked with an empty argument list
returns its neutral result (0 for deletes, empty list/map for multi-gets)
and issues zero commands to the underlying store, for every store client
and every key/serialization scheme. -/
theorem batch_empty_short_circuit {ID T : Type}
    (redisDel : List String → Nat) (redisKeys : String → List String)
    (redisMGet : List String → List (Option String))
    (tK : ID → String) (ser : ID → String) (deser : String → T)
    (pfx : String → String) :
    storeDel redisDel tK ([] : List ID) = (0, 0)
    ∧ storeDelPatterns redisKeys redisDel pfx [] = (0, 0)
    ∧ storeMGet redisMGet tK deser ([] : List ID) = ([], 0)
    ∧ storeMGetClean redisMGet tK deser ([] : List ID) = ([], 0)
    ∧ storeMGetMap redisMGet tK ser deser ([] : List ID) = ([], 0)
    ∧ storeMGetCleanMap redisMGet tK ser deser ([] : List ID) = ([], 0) :=
  ⟨rfl, rfl, rfl, rfl, rfl, rfl⟩

/-! ## Free-text wildcard expansion

Source (json-search-store, `query`):

```
function addWildcard(text) {
  if (options.wildcard === false) return text.trim();
  return `*${text.trim().replace(/ /gm, '*')}*`;
}
```

`replace(/ /gm, '*')` replaces every single space character; `trim`
removes leading and trailing whitespace. -/

/-- `String.prototype.trim`: drop whitespace from both ends. -/
def jsTrim (cs : Str) : Str :=
  ((cs.dropWhile Char.isWhitespace).reverse.dropWhile Char.isWhitespace).reverse

/-- `replace(/ /gm, '*')`: each literal space character becomes a star. -/
def spaceToStar (cs : Str) : Str := cs.map fun c => if c = ' ' then '*' else c

/-- `addWildcard` from `JsonSearchStore.query`; `wildcardFalse` is
`options.wildcard === false` (the explicit opt-out). -/
def addWildcard (wildcardFalse : Bool) (text : Str) : Str :=
  if wildcardFalse then jsTrim text
  else '*' :: spaceToStar (jsTrim text) ++ ['*']

mutual
/-- Replace every maximal whitespace run by a single star (the transform
the spec's words describe for the default wildcard expansion). -/
def collapseRuns : Str → Str
  | [] => []
  | c :: rest =>
    if c.isWhitespace then '*' :: collapseAfterWs rest else c :: collapseRuns rest
/-- Inside a whitespace run: skip further whitespace, then continue. -/
def collapseAfterWs : Str → Str
  | [] => []
  | c :: rest =>
    if c.isWhitespace then collapseAfterWs rest else c :: collapseRuns rest
end

/-- The expansion the spec describes: trim the term, replace internal
whitespace runs with a single `*`, wrap the whole term in stars.
Stated from the spec's words, for comparison with `addWildcard`. -/
def specWildcardExpand (text : Str) : Str :=
  '*' :: collapseRuns (jsTrim text) ++ ['*']

/-- Every whitespace character of the list is a plain space. -/
def onlySpaceWs (cs : Str) : Bool := cs.all fun c => !c.isWhitespace || c = ' '

/-- No two adjacent whitespace characters. -/
def singleSpaced : Str → Bool
  | [] => true
  | [_] => true
  | a :: b :: r => (!(a.isWhitespace && b.isWhitespace)) && singleSpaced (b :: r)

theorem singleSpaced_tail {a : Char} {l : Str} (h : singleSpaced (a :: l) = true) :
    singleSpaced l = true := by
  cases l with
  | nil => rfl
  | cons b r =>
    simp only [singleSpaced, Bool.and_eq_true] at h
    exact h.2

theorem space_of_ws {c : Char} (h1 : (!c.isWhitespace || c = ' ') = true)
    (h2 : c.isWhitespace = true) : c = ' ' := by
  simp [h2] at h1
  exact h1

mutual
theorem collapseRuns_eq_spaceToStar (cs : Str) (h1 : onlySpaceWs cs = true)
    (h2 : singleSpaced cs = true) : collapseRuns cs = spaceToStar cs := by
  match cs with
  | [] => rfl
  | c :: rest =>
    simp only [onlySpaceWs, List.all_cons, Bool.and_eq_true] at h1
    by_cases hw : c.isWhitespace = true
    · have hsp : c = ' ' := space_of_ws h1.1 hw
      have hrest : ∀ d r, rest = d :: r → d.isWhitespace = false := by
        intro d r hdr
        subst hdr
        simp only [singleSpaced, Bool.and_eq_true, Bool.not_eq_true',
          Bool.and_eq_false_iff] at h2
        rcases h2.1 with h | h
        · rw [hw] at h; exact absurd h (by simp)
        · exact h
      have := collapseAfterWs_eq_spaceToStar rest (by simp [onlySpaceWs, h1.2])
        (singleSpaced_tail h2) hrest
      simp [collapseRuns, hw, spaceToStar, hsp, this]
    · simp only [Bool.not_eq_true] at hw
      have hns : c ≠ ' ' := by
        intro h
        subst h
        simp at hw
      have := collapseRuns_eq_spaceToStar rest (by simp [onlySpaceWs, h1.2])
        (singleSpaced_tail h2)
      simp [collapseRuns, hw, spaceToStar, hns, this]
theorem collapseAfterWs_eq_spaceToStar (cs : Str) (h1 : onlySpaceWs cs = true)
    (h2 : singleSpaced cs = true)
    (h3 : ∀ d r, cs = d :: r → d.isWhitespace = false) :
    collapseAfterWs cs = spaceToStar cs := by
  match cs with
  | [] => rfl
  | c :: rest =>
    simp only [onlySpaceWs, List.all_cons, Bool.and_eq_true] at h1
    have hw : c.isWhitespace = false := h3 c rest rfl
    have hns : c ≠ ' ' := by
      intro h
      subst h
      simp at hw
    have := collapseRuns_eq_spaceToStar rest (by simp [onlySpaceWs, h1.2])
      (singleSpaced_tail h2)
    simp [collapseAfterWs, hw, spaceToStar, hns, this]
end

/-- **C6 counterexample.** On `"hello  world"` (two internal spaces) the
code yields `"*hello**world*"` — each space becomes its own star — while
the claim's run-collapsing description demands `"*hello*world*"`. -/
theorem addWildcard_c6_counterexample :
    addWildcard false "hello  world".toList = "*hello**world*".toList
    ∧ specWildcardExpand "hello  world".toList = "*hello*world*".toList
    ∧ addWildcard false "hello  world".toList ≠ specWildcardExpand "hello  world".toList := by
  refine ⟨by decide, by decide, by decide⟩

/-- **C6 (amended).** Default wildcard expansion replaces each single space
character by a star and wraps the trimmed term in stars; whenever the
trimmed term has no adjacent whitespace and all its whitespace characters
are plain spaces this coincides with the spec's run-collapsing
description, and opting out yields the trimmed term verbatim. -/
theorem addWildcard_spec (text : Str)
    (h1 : onlySpaceWs (jsTrim text) = true) (h2 : singleSpaced (jsTrim text) = true) :
    addWildcard false text = specWildcardExpand text
    ∧ addWildcard true text = jsTrim text := by
  constructor
  · simp [addWildcard, specWildcardExpand,
      collapseRuns_eq_spaceToStar (jsTrim text) h1 h2]
  · rfl

/-- Witness for C6 at the claim's own example, `"hello world"`. -/
theorem addWildcard_spec_witness :
    addWildcard false "hello world".toList = specWildcardExpand "hello world".toList
    ∧ addWildcard true "hello world".toList = jsTrim "hello world".toList :=
  addWildcard_spec "hello world".toList (by decide) (by decide)

/-! ## Search query compiler

Source (json-search-store, `buildQuery`): a `where` input is a JavaScript
object; for each key, `AND` compiles its child objects and joins them with
a space inside one parenthesis pair, `OR` does the same with " | " but
throws when its child list is empty, and any other key is a field leaf
`(@field:value)` whose value is brace-wrapped when the schema declares a
TAG field; the collected parts are joined with a space.

A `where` object is modelled as the list of its entries in key order
(`WhereInput`); leaf values are modelled as the strings they interpolate
into the query. -/

/-- The declared kind of a search field (`SchemaFieldTypes`). -/
inductive FieldKind where
  | TAG : FieldKind
  | TEXT : FieldKind
  | NUMERIC : FieldKind
deriving DecidableEq

/-- One key of a `where` object: an `AND` key with a list of child
objects, an `OR` key with a list of child objects, or a field leaf. -/
inductive WhereEntry where
  | andW (children : List (List WhereEntry)) : WhereEntry
  | orW (children : List (List WhereEntry)) : WhereEntry
  | cond (field : String) (value : String) : WhereEntry

/-- A `where` object: its entries in key order. -/
abbrev WhereInput := List WhereEntry

/-- `this.options.schema[key]?.type`: look the field up in the declared
schema. -/
def schemaKind (schema : List (String × FieldKind)) (k : String) : Option FieldKind :=
  (schema.find? fun kv => kv.1 == k).map fun kv => kv.2

/-- The error thrown for an empty OR child list. -/
def emptyOrMsg : String := "More than one condition required for OR"

mutual
/-- The parts pushed onto `q`, one per key of the object. -/
def buildParts (schema : List (String × FieldKind)) : WhereInput → Except String (List String)
  | [] => .ok []
  | e :: rest =>
    match buildEntry schema e with
    | .error m => .error m
    | .ok p =>
      match buildParts schema rest with
      | .error m => .error m
      | .ok ps => .ok (p :: ps)
/-- The string pushed for one key. -/
def buildEntry (schema : List (String × FieldKind)) : WhereEntry → Except String String
  | .andW cs =>
    match buildChildren schema cs with
    | .error m => .error m
    | .ok ps => .ok ("(" ++ String.intercalate " " ps ++ ")")
  | .orW cs =>
    if cs.isEmpty then .error emptyOrMsg
    else
      match buildChildren schema cs with
      | .error m => .error m
      | .ok ps => .ok ("(" ++ String.intercalate " | " ps ++ ")")
  | .cond k v =>
    let v' := if schemaKind schema k = some .TAG then "\x7b" ++ v ++ "\x7d" else v
    .ok ("(@" ++ k ++ ":" ++ v' ++ ")")
/-- `where[key].map((q) => this.buildQuery(q))`: compile each child object. -/
def buildChildren (schema : List (String × FieldKind)) :
    List (List WhereEntry) → Except String (List String)
  | [] => .ok []
  | c :: cs =>
    match buildParts schema c with
    | .error m => .error m
    | .ok ps =>
      match buildChildren schema cs with
      | .error m => .error m
      | .ok rest => .ok (String.intercalate " " ps :: rest)
end

/-- `JsonSearchStore.buildQuery`: compile the entries and join with spaces. -/
def buildQuery (schema : List (String × FieldKind)) (w : WhereInput) : Except String String :=
  match buildParts schema w with
  | .error m => .error m
  | .ok ps => .ok (String.intercalate " " ps)

/-- The schema of the claim's example: `tag` declared as a tag-kind field,
`status` as a text field. -/
def exampleSchema : List (String × FieldKind) := [("status", .TEXT), ("tag", .TAG)]

/-- The claim's example filter:
`{AND: [{status: "active"}, {OR: [{tag: "x"}, {tag: "y"}]}]}`. -/
def exampleWhere : WhereInput :=
  [.andW [[.cond "status" "active"], [.orW [[.cond "tag" "x"], [.cond "tag" "y"]]]]]

/-- **C4.** Compiling the example filter with `tag` declared tag-kind
yields exactly `((@status:active) ((@tag:{x}) | (@tag:{y})))`: leaves emit
`(@field:value)` with brace-wrapped values for tag fields, AND joins with
a space and OR with " | ", each inside one parenthesis pair. -/
theorem buildQuery_example :
    buildQuery exampleSchema exampleWhere
      = .ok "((@status:active) ((@tag:{x}) | (@tag:{y})))" := rfl

mutual
/-- Every OR node of the object has a nonempty child list. -/
def noEmptyOrW : WhereInput → Bool
  | [] => true
  | e :: rest => noEmptyOrE e && noEmptyOrW rest
def noEmptyOrE : WhereEntry → Bool
  | .andW cs => noEmptyOrC cs
  | .orW cs => !cs.isEmpty && noEmptyOrC cs
  | .cond _ _ => true
def noEmptyOrC : List (List WhereEntry) → Bool
  | [] => true
  | c :: cs => noEmptyOrW c && noEmptyOrC cs
end

mutual
theorem buildParts_total (schema : List (String × FieldKind)) (w : WhereInput) :
    (noEmptyOrW w = true → ∃ ps, buildParts schema w = .ok ps)
    ∧ (noEmptyOrW w = false → buildParts schema w = .error emptyOrMsg) := by
  match w with
  | [] => exact ⟨fun _ => ⟨[], rfl⟩, fun h => by simp [noEmptyOrW] at h⟩
  | e :: rest =>
    have he := buildEntry_total schema e
    have hr := buildParts_total schema rest
    constructor
    · intro h
      simp only [noEmptyOrW, Bool.and_eq_true] at h
      obtain ⟨p, hp⟩ := he.1 h.1
      obtain ⟨ps, hps⟩ := hr.1 h.2
      exact ⟨p :: ps, by simp [buildParts, hp, hps]⟩
    · intro h
      by_cases h' : noEmptyOrE e = true
      · have hrest : noEmptyOrW rest = false := by
          simp only [noEmptyOrW, h', Bool.true_and] at h
          exact h
        obtain ⟨p, hp⟩ := he.1 h'
        simp [buildParts, hp, hr.2 hrest]
      · simp only [Bool.not_eq_true] at h'
        simp [buildParts, he.2 h']
theorem buildEntry_total (schema : List (String × FieldKind)) (e : WhereEntry) :
    (noEmptyOrE e = true → ∃ p, buildEntry schema e = .ok p)
    ∧ (noEmptyOrE e = false → buildEntry schema e = .error emptyOrMsg) := by
  match e with
  | .andW cs =>
    have hc := buildChildren_total schema cs
    constructor
    · intro h
      obtain ⟨ps, hps⟩ := hc.1 h
      exact ⟨"(" ++ String.intercalate " " ps ++ ")", by simp [buildEntry, hps]⟩
    · intro h
      simp [buildEntry, hc.2 h]
  | .orW cs =>
    have hc := buildChildren_total schema cs
    constructor
    · intro h
      simp only [noEmptyOrE, Bool.and_eq_true, Bool.not_eq_true'] at h
      obtain ⟨ps, hps⟩ := hc.1 h.2
      exact ⟨"(" ++ String.intercalate " | " ps ++ ")", by simp [buildEntry, h.1, hps]⟩
    · intro h
      simp only [noEmptyOrE, Bool.and_eq_false_iff, Bool.not_eq_false] at h
      rcases h with h | h
      · have hemp : cs.isEmpty = true := by simpa using h
        simp [buildEntry, hemp]
      · by_cases hemp : cs.isEmpty = true
        · simp [buildEntry, hemp]
        · simp only [Bool.not_eq_true] at hemp
          simp [buildEntry, hemp, hc.2 h]
  | .cond k v => exact ⟨fun _ => ⟨_, rfl⟩, fun h => by simp [noEmptyOrE] at h⟩
theorem buildChildren_total (schema : List (String × FieldKind)) (cs : List (List WhereEntry)) :
    (noEmptyOrC cs = true → ∃ ps, buildChildren schema cs = .ok ps)
    ∧ (noEmptyOrC cs = false → buildChildren schema cs = .error emptyOrMsg) := by
  match cs with
  | [] => exact ⟨fun _ => ⟨[], rfl⟩, fun h => by simp [noEmptyOrC] at h⟩
  | c :: rest =>
    have hc := buildParts_total schema c
    have hr := buildChildren_total schema rest
    constructor
    · intro h
      simp only [noEmptyOrC, Bool.and_eq_true] at h
      obtain ⟨ps, hps⟩ := hc.1 h.1
      obtain ⟨qs, hqs⟩ := hr.1 h.2
      exact ⟨String.intercalate " " ps :: qs, by simp [buildChildren, hps, hqs]⟩
    · intro h
      by_cases h' : noEmptyOrW c = true
      · have hrest : noEmptyOrC rest = false := by
          simp only [noEmptyOrC, h', Bool.true_and] at h
          exact h
        obtain ⟨ps, hps⟩ := hc.1 h'
        simp [buildChildren, hps, hr.2 hrest]
      · simp only [Bool.not_eq_true] at h'
        simp [buildChildren, hc.2 h']
end

/-- **C5.** Compiling `{OR: []}` fails with the InvalidFilter error
("More than one condition required for OR"); more generally a filter
compiles to exactly that error whenever it contains an OR node with an
empty child list, and compiles successfully — so never fails for this
reason — whenever every OR node has at least one child. -/
theorem buildQuery_empty_or (schema : List (String × FieldKind)) :
    buildQuery schema [.orW []] = .error emptyOrMsg
    ∧ ∀ w : WhereInput,
        (noEmptyOrW w = true → ∃ s, buildQuery schema w = .ok s)
        ∧ (noEmptyOrW w = false → buildQuery schema w = .error emptyOrMsg) := by
  constructor
  · rfl
  · intro w
    have h := buildParts_total schema w
    constructor
    · intro hw
      obtain ⟨ps, hps⟩ := h.1 hw
      exact ⟨String.intercalate " " ps, by simp [buildQuery, hps]⟩
    · intro hw
      simp [buildQuery, h.2 hw]

/-- Witness for C5: the example filter has no empty OR and compiles;
`{OR: []}` fails. -/
theorem buildQuery_empty_or_witness :
    buildQuery exampleSchema [.orW []] = .error emptyOrMsg
    ∧ ∃ s, buildQuery exampleSchema exampleWhere = .ok s :=
  ⟨(buildQuery_empty_or exampleSchema).1,
    ((buildQuery_empty_or exampleSchema).2 exampleWhere).1 (by decide)⟩

/-! ## query(): empty overall query

Source (json-search-store, `query`): an `AND` array collects the compiled
`where` part (if supplied) and the compiled free-text part (if supplied);
`if (!AND.length) return []` fires before `rawQuery` is called, so an
empty overall query returns the empty document list without issuing a
search command.  The search command itself is modelled as a function
parameter, and the result carries the number of commands issued.  (When
the command does run, the source maps `documents` to their values — an
empty reply yields `[]` either way.) -/

/-- `options.search`: a bare term, or a term with a list of fields. -/
inductive SearchTerm where
  | plain (text : Str) : SearchTerm
  | inFields (text : Str) (ks : List String) : SearchTerm

/-- The `AND` array of parts that `query` builds before joining. -/
def queryParts (schema : List (String × FieldKind)) (whereOpt : Option WhereInput)
    (searchOpt : Option SearchTerm) (wildcardFalse : Bool) : Except String (List String) :=
  let afterWhere : Except String (List String) :=
    match whereOpt with
    | none => .ok []
    | some w =>
      match buildQuery schema w with
      | .error m => .error m
      | .ok s => .ok [s]
  match afterWhere with
  | .error m => .error m
  | .ok parts =>
    match searchOpt with
    | none => .ok parts
    | some (.plain t) =>
      .ok (parts ++ ["(" ++ String.mk (addWildcard wildcardFalse t) ++ ")"])
    | some (.inFields t ks) =>
      .ok (parts ++ ["(" ++ String.intercalate " | "
          (ks.map fun k => "(@" ++ k ++ ":" ++ String.mk (addWildcard wildcardFalse t) ++ ")")
          ++ ")"])

/-- `JsonSearchStore.query`: returns the documents and the number of
search commands issued. -/
def runQuery {α : Type} (exec : String → List α) (schema : List (String × FieldKind))
    (whereOpt : Option WhereInput) (searchOpt : Option SearchTerm) (wildcardFalse : Bool) :
    Except String (List α × Nat) :=
  match queryParts schema whereOpt searchOpt wildcardFalse with
  | .error m => .error m
  | .ok parts =>
    if parts.isEmpty then .ok ([], 0)
    else .ok (exec (String.intercalate " " parts), 1)

/-- **C8.** With neither a filter tree nor a free-text term, `query`
returns the empty result list, raises no error, and issues no search
command — for every store client and schema. -/
theorem query_empty_no_command {α : Type} (exec : String → List α)
    (schema : List (String × FieldKind)) (wildcardFalse : Bool) :
    runQuery exec schema none none wildcardFalse = .ok ([], 0) := rfl

/-! ## Index definition differ: key-prefix comparison

Source (json-search-store, `defMappings`): the PREFIX entry's compare is

```
value = Array.isArray(value) ? value : [value];
return value.length === defValue.length && value.every((v) => defValue.includes(v));
```

i.e. equal length plus declared-is-a-subset-of-live, on the declared
prefix list (a bare string having been wrapped into a one-element list)
against the live prefixes. -/

/-- The PREFIX comparison of `defMappings`: equal lengths and every
declared prefix occurring in the live list. -/
def prefixesUnchanged (declared live : List String) : Bool :=
  declared.length == live.length && declared.all fun v => live.contains v

/-- **C7 counterexample.** With duplicates the comparison is not set
equality: declared `["a","a"]` and live `["a","b"]` compare as unchanged
although the two sets of prefixes differ (`"b"` is live but not
declared). -/
theorem prefixes_c7_counterexample :
    prefixesUnchanged ["a", "a"] ["a", "b"] = true
    ∧ ¬(∀ x : String, x ∈ (["a", "a"] : List String) ↔ x ∈ (["a", "b"] : List String)) := by
  constructor
  · decide
  · intro h
    have hb : ("b" : String) ∈ (["a", "a"] : List String) := (h "b").mpr (by decide)
    simp at hb

/-- **C7 (amended).** The prefix lists compare as unchanged exactly when
they have equal length and every declared prefix occurs in the live list;
when both lists are duplicate-free, this is precisely set equality
(order-independent, exact membership match). -/
theorem prefixesUnchanged_spec (d l : List String) :
    (prefixesUnchanged d l = true ↔ d.length = l.length ∧ ∀ x ∈ d, x ∈ l)
    ∧ (d.Nodup → l.Nodup →
        (prefixesUnchanged d l = true ↔ ∀ x, x ∈ d ↔ x ∈ l)) := by
  have hchar : prefixesUnchanged d l = true ↔ d.length = l.length ∧ ∀ x ∈ d, x ∈ l := by
    simp [prefixesUnchanged, List.all_eq_true, List.elem_iff]
  refine ⟨hchar, fun hd hl => ?_⟩
  rw [hchar]
  constructor
  · rintro ⟨hlen, hsub⟩ x
    have hdl : d.toFinset ⊆ l.toFinset := by
      intro y hy
      exact List.mem_toFinset.mpr (hsub y (List.mem_toFinset.mp hy))
    have hcard : l.toFinset.card ≤ d.toFinset.card := by
      calc l.toFinset.card ≤ l.length := l.toFinset_card_le
        _ = d.length := hlen.symm
        _ = d.toFinset.card := (List.toFinset_card_of_nodup hd).symm
    have hset : d.toFinset = l.toFinset := Finset.eq_of_subset_of_card_le hdl hcard
    constructor
    · exact hsub x
    · intro hx
      have : x ∈ l.toFinset := List.mem_toFinset.mpr hx
      rw [← hset] at this
      exact List.mem_toFinset.mp this
  · intro h
    have hset : d.toFinset = l.toFinset := by
      ext x
      simp only [List.mem_toFinset]
      exact h x
    constructor
    · calc d.length = d.toFinset.card := (List.toFinset_card_of_nodup hd).symm
        _ = l.toFinset.card := by rw [hset]
        _ = l.length := List.toFinset_card_of_nodup hl
    · exact fun x hx => (h x).mp hx

/-- Witness for C7 at duplicate-free lists in different orders. -/
theorem prefixesUnchanged_spec_witness :
    prefixesUnchanged ["a", "b"] ["b", "a"] = true
      ↔ ∀ x, x ∈ (["a", "b"] : List String) ↔ x ∈ (["b", "a"] : List String) :=
  (prefixesUnchanged_spec ["a", "b"] ["b", "a"]).2 (by decide) (by decide)

/-! ## numberParser

Source (string-parsers):

```
deserialize(value) { const num = parseInt(value);
  if (isNaN(num)) throw new Error(`Invalid number : ${value}`); return num; }
serialize(value) { return value.toString(); }
```

JavaScript numbers are modelled by their decimal string form: an integer
part and a list of fraction digits (`JsNumber`).  `toString()` prints
plain decimal for magnitudes below 1e21 and switches to exponent
notation (`"1e+21"`) from 1e21 on; both regimes are modelled, the
significand being printed from the exact digits — which is the shortest
significand for the exactly-representable inputs the claims touch
(doubles of that magnitude are integers, so fraction digits only occur
below the threshold).  `parseInt` is modelled faithfully: skip leading
whitespace, take an optional sign, honour the default-radix `0x`/`0X`
hex prefix, read the longest digit prefix, and fail when no digit was
read. -/

/-- A JavaScript number in decimal form: integer part and fraction
digits, so that `⟨3, [5]⟩` is `3.5` and `⟨i, []⟩` is the integer `i`. -/
structure JsNumber where
  intPart : Int
  fracDigits : List Nat
deriving DecidableEq

/-- The character of a decimal digit. -/
def digitChar (d : Nat) : Char :=
  if d = 0 then '0' else if d = 1 then '1' else if d = 2 then '2'
  else if d = 3 then '3' else if d = 4 then '4' else if d = 5 then '5'
  else if d = 6 then '6' else if d = 7 then '7' else if d = 8 then '8' else '9'

/-- The value of a decimal digit character. -/
def digitVal (c : Char) : Nat := c.toNat - '0'.toNat

/-- Value of a big-endian decimal digit string. -/
def decValAux (ds : List Char) : Nat := ds.foldl (fun a c => a * 10 + digitVal c) 0

/-- Hex digit test for the `0x` branch of `parseInt`. -/
def isHexDigitJs (c : Char) : Bool :=
  c.isDigit || ('a' ≤ c && c ≤ 'f') || ('A' ≤ c && c ≤ 'F')

/-- Value of a hex digit character. -/
def hexDigitVal (c : Char) : Nat :=
  if c.isDigit then digitVal c
  else if 'a' ≤ c && c ≤ 'f' then c.toNat - 'a'.toNat + 10
  else c.toNat - 'A'.toNat + 10

/-- Value of a big-endian hex digit string. -/
def hexValAux (ds : List Char) : Nat := ds.foldl (fun a c => a * 16 + hexDigitVal c) 0

/-- The optional leading sign of `parseInt`'s input. -/
def parseSign (cs : Str) : Bool × Str :=
  match cs with
  | c :: r => if c = '-' then (true, r) else if c = '+' then (false, r) else (false, cs)
  | [] => (false, [])

/-- The `0x` / `0X` prefix that switches `parseInt`'s default radix to 16. -/
def stripHexMark (cs : Str) : Bool × Str :=
  match cs with
  | c0 :: c1 :: r => if c0 = '0' ∧ (c1 = 'x' ∨ c1 = 'X') then (true, r) else (false, cs)
  | _ => (false, cs)

/-- `parseInt` after the leading whitespace has been removed. -/
def parseIntAfterTrim (cs : Str) : Option Int :=
  let sgn := parseSign cs
  let hx := stripHexMark sgn.2
  let ds := if hx.1 then hx.2.takeWhile isHexDigitJs else hx.2.takeWhile Char.isDigit
  if ds.isEmpty then none
  else
    let n : Nat := if hx.1 then hexValAux ds else decValAux ds
    some (if sgn.1 then -(n : Int) else (n : Int))

/-- JavaScript's `parseInt(value)` (radix argument omitted): `none` is NaN. -/
def parseIntJs (s : String) : Option Int :=
  parseIntAfterTrim (s.toList.dropWhile Char.isWhitespace)

/-- Decimal digit characters of a natural number, with a fuel argument so
the definition is structural (the fuel `n + 1` always suffices). -/
def natToCharsAux : Nat → Nat → List Char
  | 0, _ => []
  | fuel + 1, n =>
    if n < 10 then [digitChar n]
    else natToCharsAux fuel (n / 10) ++ [digitChar (n % 10)]

/-- Plain decimal digit string of a natural number. -/
def natToChars (n : Nat) : List Char := natToCharsAux (n + 1) n

/-- The threshold 1e21 at which `Number.prototype.toString` switches from
plain decimal to exponent notation. -/
def e21 : Nat := 10 ^ 21

/-- Strip trailing zero digits, leaving the significand of an integer. -/
def dropTrailingZeros (ds : List Char) : List Char :=
  (ds.reverse.dropWhile fun c => c == '0').reverse

/-- Exponent notation for an integer of 22 or more digits: the
significand digits (a decimal point after the first when there are
more), then `e+` and the decimal exponent — so 1e21 prints `"1e+21"`. -/
def expChars (n : Nat) : List Char :=
  let ds := natToChars n
  (match dropTrailingZeros ds with
   | [] => ['0']
   | d :: rest => d :: if rest.isEmpty then [] else '.' :: rest)
  ++ 'e' :: '+' :: natToChars (ds.length - 1)

/-- `Number.prototype.toString` for a natural number: plain decimal below
1e21, exponent notation from 1e21 on. -/
def natToCharsJs (n : Nat) : List Char :=
  if n < e21 then natToChars n else expChars n

/-- `Number.prototype.toString` for an integer. -/
def intToChars (i : Int) : List Char :=
  if i < 0 then '-' :: natToCharsJs i.natAbs else natToCharsJs i.toNat

/-- `value.toString()` on a `JsNumber`: integer part, then the fraction
digits after a decimal point when there are any. -/
def numberSerialize (v : JsNumber) : String :=
  String.mk (intToChars v.intPart
    ++ if v.fracDigits.isEmpty then [] else '.' :: v.fracDigits.map digitChar)

/-- `numberParser.deserialize`: `parseInt`, throwing on NaN. -/
def numberDeserialize (s : String) : Except String JsNumber :=
  match parseIntJs s with
  | none => .error ("Invalid number : " ++ s)
  | some n => .ok ⟨n, []⟩

theorem digitChar_isDigit {d : Nat} (h : d < 10) : (digitChar d).isDigit = true := by
  unfold digitChar
  interval_cases d <;> decide

theorem digitVal_digitChar {d : Nat} (h : d < 10) : digitVal (digitChar d) = d := by
  unfold digitChar digitVal
  interval_cases d <;> decide

theorem decValAux_append (ds : List Char) (c : Char) :
    decValAux (ds ++ [c]) = decValAux ds * 10 + digitVal c := by
  unfold decValAux
  rw [List.foldl_append]
  rfl

theorem natToCharsAux_spec (fuel : Nat) : ∀ n, n < fuel →
    decValAux (natToCharsAux fuel n) = n
    ∧ natToCharsAux fuel n ≠ []
    ∧ ∀ c ∈ natToCharsAux fuel n, c.isDigit = true := by
  induction fuel with
  | zero => intro n h; omega
  | succ fuel ih =>
    intro n h
    by_cases h10 : n < 10
    · refine ⟨?_, by simp [natToCharsAux, h10], ?_⟩
      · simp [natToCharsAux, h10, decValAux, digitVal_digitChar h10]
      · intro c hc
        simp [natToCharsAux, h10] at hc
        subst hc
        exact digitChar_isDigit h10
    · have hdiv : n / 10 < fuel := by
        have := Nat.div_lt_self (by omega : 0 < n) (by omega : 1 < 10)
        omega
      obtain ⟨hval, hne, hdig⟩ := ih (n / 10) hdiv
      have hmod : n % 10 < 10 := Nat.mod_lt _ (by omega)
      refine ⟨?_, by simp [natToCharsAux, h10], ?_⟩
      · rw [show natToCharsAux (fuel + 1) n
            = natToCharsAux fuel (n / 10) ++ [digitChar (n % 10)] by
              simp [natToCharsAux, h10]]
        rw [decValAux_append, hval, digitVal_digitChar hmod]
        omega
      · intro c hc
        simp only [natToCharsAux, h10, if_false, List.mem_append, List.mem_singleton] at hc
        rcases hc with hc | hc
        · exact hdig c hc
        · subst hc
          exact digitChar_isDigit hmod

theorem natToChars_spec (n : Nat) :
    decValAux (natToChars n) = n
    ∧ natToChars n ≠ []
    ∧ ∀ c ∈ natToChars n, c.isDigit = true :=
  natToCharsAux_spec (n + 1) n (by omega)

theorem digit_not_ws {c : Char} (h : c.isDigit = true) : c.isWhitespace = false := by
  by_cases h1 : c = ' '
  · subst h1; exact absurd h (by decide)
  by_cases h2 : c = '\t'
  · subst h2; exact absurd h (by decide)
  by_cases h3 : c = '\r'
  · subst h3; exact absurd h (by decide)
  by_cases h4 : c = '\n'
  · subst h4; exact absurd h (by decide)
  simp [Char.isWhitespace, h1, h2, h3, h4]

theorem digit_ne {c : Char} (h : c.isDigit = true) (d : Char) (hd : d.isDigit = false) :
    c ≠ d := by
  intro hcd
  subst hcd
  rw [h] at hd
  exact Bool.true_eq_false.mp hd

/-- The steps of `parseInt` on a bare digit string leave it whole. -/
theorem parseCore_natToChars (m : Nat) :
    (natToChars m).dropWhile Char.isWhitespace = natToChars m
    ∧ parseSign (natToChars m) = (false, natToChars m)
    ∧ stripHexMark (natToChars m) = (false, natToChars m)
    ∧ (natToChars m).takeWhile Char.isDigit = natToChars m
    ∧ (natToChars m).isEmpty = false := by
  obtain ⟨-, hne, hdig⟩ := natToChars_spec m
  obtain ⟨c, t, hct⟩ := List.exists_cons_of_ne_nil hne
  have hc : c.isDigit = true := hdig c (by rw [hct]; exact List.mem_cons_self c t)
  refine ⟨?_, ?_, ?_, ?_, ?_⟩
  · rw [hct, List.dropWhile_cons, digit_not_ws hc]
    simp
  · rw [hct]
    simp only [parseSign]
    rw [if_neg (digit_ne hc '-' (by decide)), if_neg (digit_ne hc '+' (by decide))]
  · rw [hct]
    match t, hct with
    | [], _ => simp [stripHexMark]
    | d :: r, hct =>
      have hd : d.isDigit = true := hdig d (by rw [hct]; simp)
      simp only [stripHexMark]
      rw [if_neg]
      rintro ⟨-, hx | hx⟩
      · exact digit_ne hd 'x' (by decide) hx
      · exact digit_ne hd 'X' (by decide) hx
  · exact List.takeWhile_eq_self_iff.mpr hdig
  · rw [hct]; rfl

theorem parseIntAfterTrim_natToChars (m : Nat) :
    parseIntAfterTrim (natToChars m) = some (m : Int) := by
  obtain ⟨-, hsign, hhex, htake, hne⟩ := parseCore_natToChars m
  obtain ⟨hval, -, -⟩ := natToChars_spec m
  simp [parseIntAfterTrim, hsign, hhex, htake, hne, hval]

/-- `parseInt(i.toString()) = i` for every integer of magnitude below
1e21 (where `toString` prints plain decimal). -/
theorem parseIntJs_intToChars (i : Int) (hmag : i.natAbs < e21) :
    parseIntJs (String.mk (intToChars i)) = some i := by
  unfold parseIntJs intToChars
  by_cases hneg : i < 0
  · rw [if_pos hneg]
    have hjs : natToCharsJs i.natAbs = natToChars i.natAbs := if_pos hmag
    rw [hjs]
    obtain ⟨hdrop, hsign, hhex, htake, hne⟩ := parseCore_natToChars i.natAbs
    obtain ⟨hval, -, -⟩ := natToChars_spec i.natAbs
    have hl : (String.mk ('-' :: natToChars i.natAbs)).toList
        = '-' :: natToChars i.natAbs := rfl
    rw [hl, List.dropWhile_cons]
    rw [show ('-' : Char).isWhitespace = false by decide]
    simp only [Bool.false_eq_true, if_false]
    have hps : parseSign ('-' :: natToChars i.natAbs) = (true, natToChars i.natAbs) := by
      simp [parseSign]
    simp [parseIntAfterTrim, hps, hhex, htake, hne, hval, abs_of_neg hneg]
  · rw [if_neg hneg]
    have h2 : i.toNat < e21 := by omega
    have hjs : natToCharsJs i.toNat = natToChars i.toNat := if_pos h2
    rw [hjs]
    obtain ⟨hdrop, -, -, -, -⟩ := parseCore_natToChars i.toNat
    rw [show (String.mk (natToChars i.toNat)).toList = natToChars i.toNat from rfl, hdrop,
      parseIntAfterTrim_natToChars]
    congr 1
    omega

/-- **C3 counterexample.** The finite number `3.5` serializes to `"3.5"`
but `parseInt` stops at the decimal point: deserialize returns `3`, not
`3.5` — the round trip fails on non-integer finite numbers.  It also
fails on integer-valued numbers from 1e21 on: `toString` prints
`"1e+21"` and `parseInt` reads only the significand's integer part,
giving `1`. -/
theorem numberParser_c3_counterexample :
    numberSerialize ⟨3, [5]⟩ = "3.5"
    ∧ numberDeserialize (numberSerialize ⟨3, [5]⟩) = .ok ⟨3, []⟩
    ∧ (⟨3, []⟩ : JsNumber) ≠ ⟨3, [5]⟩
    ∧ numberSerialize ⟨10 ^ 21, []⟩ = "1e+21"
    ∧ numberDeserialize (numberSerialize ⟨10 ^ 21, []⟩) = .ok ⟨1, []⟩
    ∧ (⟨1, []⟩ : JsNumber) ≠ ⟨10 ^ 21, []⟩ :=
  ⟨rfl, rfl, by decide, rfl, rfl, by decide⟩

/-- **C3 (amended).** Every integer-valued number of magnitude below
1e21 — the threshold where `toString` switches to exponent notation —
round-trips through `serialize`/`deserialize` (non-integer finite
numbers are truncated at the decimal point by `parseInt`, and from 1e21
on the exponent form collapses to the significand's integer part);
`deserialize "42"` yields `42`, `serialize 42` yields `"42"`, and
`deserialize "abc"` fails with the InvalidFormat error. -/
theorem numberParser_roundtrip_int (i : Int) (hmag : i.natAbs < e21) :
    numberDeserialize (numberSerialize ⟨i, []⟩) = .ok ⟨i, []⟩
    ∧ numberDeserialize "42" = .ok ⟨42, []⟩
    ∧ numberSerialize ⟨42, []⟩ = "42"
    ∧ numberDeserialize "abc" = .error "Invalid number : abc" := by
  refine ⟨?_, rfl, rfl, rfl⟩
  unfold numberDeserialize numberSerialize
  simp only [List.isEmpty_nil, if_true, List.append_nil]
  rw [parseIntJs_intToChars i hmag]

/-- Witness for C3 at the claim's own integer, `42`. -/
theorem numberParser_roundtrip_int_witness :
    numberDeserialize (numberSerialize ⟨42, []⟩) = .ok ⟨42, []⟩ :=
  (numberParser_roundtrip_int 42 (by decide)).1

/-! ## objectParser: the JSON value codec

Source (string-parsers):

```
serialize(value)  { if (typeof value === "undefined") return "REDIS_UNDEFINED";
                    return JSON.stringify(recursiveReplace(value)); }
deserialize(value){ if (value === "REDIS_UNDEFINED") return undefined;
                    return JSON.parse(value, (key, value) => {
                      if (typeof value === "string" && value.startsWith("REDIS_DATE:"))
                        return new Date(value.slice("REDIS_DATE:".length));
                      return value; }); }
recursiveReplace(value): Date -> "REDIS_DATE:" + toISOString(); arrays and
non-null objects recurse; everything else is returned unchanged.
```

Serializable values are a tagged tree (`Value`); a `Date` is represented
by its ISO-8601 string, so that `toISOString` is that string and
`new Date(iso)` restores the same instant.  `JSON.stringify` followed by
`JSON.parse` is the identity on JSON trees with duplicate-free object
keys, and the string it produces is never the bare 15-character sentinel
(stringify always quotes strings), so the encoded text is modelled by
`Encoded`: either the raw sentinel string `"REDIS_UNDEFINED"`, or JSON
text carrying its parse tree.  `jsonStringify` captures what stringify
does to the tree: `undefined` has no JSON form (`none`), becomes `null`
as an array element, and is dropped as an object property; a `Date` is
its `toJSON` ISO string.  The parse reviver is `reviveDates`, applied to
every string of the parsed tree. -/

/-- A serializable JavaScript value: null, boolean, number, string,
undefined, Date (as its ISO-8601 string), array, or string-keyed object. -/
inductive Value where
  | vNull : Value
  | vBool (b : Bool) : Value
  | vNum (n : Int) : Value
  | vStr (s : Str) : Value
  | vUndef : Value
  | vDate (iso : Str) : Value
  | vArr (elems : List Value) : Value
  | vObj (fields : List (Str × Value)) : Value

/-- The date sentinel prefix `"REDIS_DATE:"`. -/
def datePfx : Str := "REDIS_DATE:".toList

/-- `typeof value === "undefined"`. -/
def isUndefV : Value → Bool
  | .vUndef => true
  | _ => false

mutual
/-- `recursiveReplace`: a Date becomes its prefixed ISO string, arrays and
objects recurse, everything else (including nested undefined) is returned
unchanged. -/
def recursiveReplace : Value → Value
  | .vDate iso => .vStr (datePfx ++ iso)
  | .vArr xs => .vArr (recursiveReplaceList xs)
  | .vObj fs => .vObj (recursiveReplaceFields fs)
  | v => v
def recursiveReplaceList : List Value → List Value
  | [] => []
  | x :: xs => recursiveReplace x :: recursiveReplaceList xs
def recursiveReplaceFields : List (Str × Value) → List (Str × Value)
  | [] => []
  | (k, v) :: fs => (k, recursiveReplace v) :: recursiveReplaceFields fs
end

mutual
/-- What `JSON.stringify` does to a value tree: `undefined` has no JSON
form, a `Date` contributes its `toJSON` ISO string, an `undefined` array
element becomes `null`, an `undefined` object property is dropped. -/
def jsonStringify : Value → Option Value
  | .vUndef => none
  | .vDate iso => some (.vStr iso)
  | .vArr xs => some (.vArr (jsonStringifyList xs))
  | .vObj fs => some (.vObj (jsonStringifyFields fs))
  | v => some v
def jsonStringifyList : List Value → List Value
  | [] => []
  | x :: xs => (jsonStringify x).getD .vNull :: jsonStringifyList xs
def jsonStringifyFields : List (Str × Value) → List (Str × Value)
  | [] => []
  | (k, v) :: fs =>
    match jsonStringify v with
    | none => jsonStringifyFields fs
    | some j => (k, j) :: jsonStringifyFields fs
end

mutual
/-- The `JSON.parse` reviver: every string starting with `"REDIS_DATE:"`
becomes a Date carrying the rest of the string (`slice` past the prefix
length); arrays and objects are revived element-wise. -/
def reviveDates : Value → Value
  | .vStr s => if datePfx.isPrefixOf s then .vDate (s.drop datePfx.length) else .vStr s
  | .vArr xs => .vArr (reviveList xs)
  | .vObj fs => .vObj (reviveFields fs)
  | v => v
def reviveList : List Value → List Value
  | [] => []
  | x :: xs => reviveDates x :: reviveList xs
def reviveFields : List (Str × Value) → List (Str × Value)
  | [] => []
  | (k, v) :: fs => (k, reviveDates v) :: reviveFields fs
end

/-- The flat string an `objectParser` round trip passes through: either
the raw sentinel string `"REDIS_UNDEFINED"`, or JSON text represented by
its parse tree. -/
inductive Encoded where
  | undefSentinel : Encoded
  | jsonText (tree : Value) : Encoded

/-- `objectParser.serialize`: top-level undefined becomes the sentinel;
otherwise `JSON.stringify(recursiveReplace(value))` (never `undefined`
at top level once `value` is not, so the default never fires). -/
def objSerialize (v : Value) : Encoded :=
  if isUndefV v then .undefSentinel
  else .jsonText ((jsonStringify (recursiveReplace v)).getD .vNull)

/-- `objectParser.deserialize`: the sentinel string becomes undefined;
any other text is JSON-parsed with the date reviver. -/
def objDeserialize : Encoded → Value
  | .undefSentinel => .vUndef
  | .jsonText t => reviveDates t

/-- Duplicate-free object keys (JavaScript objects cannot repeat a key). -/
def keysNodup : List (Str × Value) → Bool
  | [] => true
  | (k, _) :: fs => !((fs.map Prod.fst).contains k) && keysNodup fs

mutual
/-- Values on which the round trip is exact: no undefined anywhere, no
string carrying the date prefix, object keys duplicate-free. -/
def cleanVal : Value → Bool
  | .vUndef => false
  | .vStr s => !(datePfx.isPrefixOf s)
  | .vArr xs => cleanList xs
  | .vObj fs => cleanFields fs && keysNodup fs
  | _ => true
def cleanList : List Value → Bool
  | [] => true
  | x :: xs => cleanVal x && cleanList xs
def cleanFields : List (Str × Value) → Bool
  | [] => true
  | (_, v) :: fs => cleanVal v && cleanFields fs
end

/-- **C2.** `serialize(undefined)` is exactly the literal sentinel string
`"REDIS_UNDEFINED"`, and `deserialize("REDIS_UNDEFINED")` is `undefined`
— the sentinel test precedes JSON parsing, so no error is raised. -/
theorem objectParser_sentinel :
    objSerialize .vUndef = .undefSentinel
    ∧ objDeserialize .undefSentinel = .vUndef :=
  ⟨rfl, rfl⟩

mutual
theorem reviveRoundValue (v : Value) (h : cleanVal v = true) :
    ∃ j, jsonStringify (recursiveReplace v) = some j ∧ reviveDates j = v := by
  match v with
  | .vNull => exact ⟨.vNull, rfl, rfl⟩
  | .vBool b => exact ⟨.vBool b, rfl, rfl⟩
  | .vNum n => exact ⟨.vNum n, rfl, rfl⟩
  | .vStr s =>
    have hp : datePfx.isPrefixOf s = false := by
      simp only [cleanVal, Bool.not_eq_true'] at h
      exact h
    exact ⟨.vStr s, rfl, by simp [reviveDates, hp]⟩
  | .vUndef => simp [cleanVal] at h
  | .vDate iso =>
    refine ⟨.vStr (datePfx ++ iso), rfl, ?_⟩
    simp [reviveDates, isPrefixOf_append, List.drop_left]
  | .vArr xs =>
    have hxs : cleanList xs = true := h
    refine ⟨.vArr (jsonStringifyList (recursiveReplaceList xs)), rfl, ?_⟩
    have := reviveRoundList xs hxs
    simp [reviveDates, this]
  | .vObj fs =>
    have hfs : cleanFields fs = true := by
      simp only [cleanVal, Bool.and_eq_true] at h
      exact h.1
    refine ⟨.vObj (jsonStringifyFields (recursiveReplaceFields fs)), rfl, ?_⟩
    have := reviveRoundFields fs hfs
    simp [reviveDates, this]
theorem reviveRoundList (xs : List Value) (h : cleanList xs = true) :
    reviveList (jsonStringifyList (recursiveReplaceList xs)) = xs := by
  match xs with
  | [] => rfl
  | x :: rest =>
    simp only [cleanList, Bool.and_eq_true] at h
    obtain ⟨j, hj, hr⟩ := reviveRoundValue x h.1
    have hrest := reviveRoundList rest h.2
    simp [recursiveReplaceList, jsonStringifyList, hj, reviveList, hr, hrest]
theorem reviveRoundFields (fs : List (Str × Value)) (h : cleanFields fs = true) :
    reviveFields (jsonStringifyFields (recursiveReplaceFields fs)) = fs := by
  match fs with
  | [] => rfl
  | (k, v) :: rest =>
    simp only [cleanFields, Bool.and_eq_true] at h
    obtain ⟨j, hj, hr⟩ := reviveRoundValue v h.1
    have hrest := reviveRoundFields rest h.2
    simp [recursiveReplaceFields, jsonStringifyFields, hj, reviveFields, hr, hrest]
end

/-- **C1 (amended).** `deserialize(serialize(v))` deep-equals `v` for
undefined itself and for every Serializable Value containing no nested
undefined and no string starting with `"REDIS_DATE:"` — nested Dates are
restored; a nested undefined, however, is not restored (it becomes null
in arrays and is dropped from objects, per `JSON.stringify`). -/
theorem objectParser_roundtrip (v : Value)
    (h : v = .vUndef ∨ cleanVal v = true) :
    objDeserialize (objSerialize v) = v := by
  rcases h with h | h
  · subst h; rfl
  · have hu : isUndefV v = false := by
      cases v <;> first | rfl | simp [cleanVal] at h
    obtain ⟨j, hj, hr⟩ := reviveRoundValue v h
    simp [objSerialize, hu, objDeserialize, hj, hr]

/-- Witness for C1 at `{a: [1, new Date(0)]}`. -/
theorem objectParser_roundtrip_witness :
    objDeserialize (objSerialize (.vObj [("a".toList,
        .vArr [.vNum 1, .vDate "1970-01-01T00:00:00.000Z".toList])]))
      = .vObj [("a".toList, .vArr [.vNum 1, .vDate "1970-01-01T00:00:00.000Z".toList])] :=
  objectParser_roundtrip _ (Or.inr (by decide))

/-- The claim's featured input `{a: [1, undefined, new Date(0)]}`. -/
def c1Example : Value :=
  .vObj [("a".toList, .vArr [.vNum 1, .vUndef, .vDate "1970-01-01T00:00:00.000Z".toList])]

/-- **C1 counterexample.** `{a: [1, undefined, new Date(0)]}` does not
round-trip: the nested undefined is not restored — `recursiveReplace`
leaves it untouched and `JSON.stringify` turns it into `null`, so the
decoded value is `{a: [1, null, new Date(0)]}`. -/
theorem objectParser_c1_counterexample :
    objDeserialize (objSerialize c1Example) ≠ c1Example := by
  have h : objDeserialize (objSerialize c1Example)
      = .vObj [("a".toList,
          .vArr [.vNum 1, .vNull, .vDate "1970-01-01T00:00:00.000Z".toList])] := rfl
  rw [h]
  simp [c1Example]
